import Mathlib

set_option maxRecDepth 8192

/-!
Shallow embedding of the fluent HTTP client (client.go, response.go).
Go strings are modelled as lists of byte values; the pieces of net/url,
net/textproto and net/http that the client exercises are modelled at the
byte level, faithful to their documented behaviour on the inputs the
client can produce.
-/

namespace Fluent

/-- Go strings are byte sequences; we model them as lists of byte values. -/
abbrev GoStr := List Nat

/-- UTF-8 encoding of a Unicode code point, as Go string literals store it. -/
def utf8Bytes (n : Nat) : List Nat :=
  if n < 128 then [n]
  else if n < 2048 then [192 + n / 64, 128 + n % 64]
  else if n < 65536 then [224 + n / 4096, 128 + n / 64 % 64, 128 + n % 64]
  else [240 + n / 262144, 128 + n / 4096 % 64, 128 + n / 64 % 64, 128 + n % 64]

/-- Byte list of a Lean string literal, used to write Go string constants. -/
def gs (s : String) : GoStr :=
  s.data.foldr (fun c r => utf8Bytes c.toNat ++ r) []

/-- strings.Cut at the first occurrence of byte b, dropping the separator:
(before, after). When b is absent the whole string is before and after is
empty, exactly as the uses of Cut in the client expect. -/
def cutByte (s : GoStr) (b : Nat) : GoStr × GoStr :=
  match s with
  | [] => ([], [])
  | c :: rest =>
    if c = b then ([], rest)
    else
      let p := cutByte rest b
      (c :: p.1, p.2)

/-- Splitting on a byte, keeping empty fields. -/
def splitByte (b : Nat) : GoStr → List GoStr
  | [] => [[]]
  | c :: rest =>
    if c = b then [] :: splitByte b rest
    else
      match splitByte b rest with
      | [] => [[c]]
      | s :: ss => (c :: s) :: ss

/-- strings.TrimSuffix. -/
def trimSuffixStr (s suf : GoStr) : GoStr :=
  if suf.isSuffixOf s then s.take (s.length - suf.length) else s

/-- strings.TrimPrefix. -/
def trimPrefixStr (s pre : GoStr) : GoStr :=
  if pre.isPrefixOf s then s.drop pre.length else s

/-- Byte-wise lexicographic comparison, the order used by Go sort.Strings. -/
def bytesLt : GoStr → GoStr → Bool
  | [], [] => false
  | [], _ :: _ => true
  | _ :: _, [] => false
  | a :: as, b :: bs => if a < b then true else if b < a then false else bytesLt as bs

/-- Joining encoded key=value segments with byte 38, the ampersand. -/
def intercalateAmp : List GoStr → GoStr
  | [] => []
  | [x] => x
  | x :: y :: rest => x ++ 38 :: intercalateAmp (y :: rest)

/-- Bytes net/url never escapes: ASCII letters, digits, and the four marks. -/
def isUnreservedByte (b : Nat) : Bool :=
  decide ((48 ≤ b ∧ b ≤ 57) ∨ (65 ≤ b ∧ b ≤ 90) ∨ (97 ≤ b ∧ b ≤ 122) ∨
    b = 45 ∨ b = 95 ∨ b = 46 ∨ b = 126)

/-- Upper-case hexadecimal digit, as net/url emits percent escapes. -/
def upperHexDigit (n : Nat) : Nat :=
  if n < 10 then 48 + n else 55 + n

/-- url.QueryEscape: space becomes plus, unreserved bytes pass through,
every other byte becomes a percent escape. -/
def queryEscape (s : GoStr) : GoStr :=
  s.foldr
    (fun b acc =>
      if isUnreservedByte b then b :: acc
      else if b = 32 then 43 :: acc
      else 37 :: upperHexDigit (b / 16) :: upperHexDigit (b % 16) :: acc) []

/-- Value of a hexadecimal digit byte, case insensitive as in net/url. -/
def hexVal (b : Nat) : Option Nat :=
  if 48 ≤ b ∧ b ≤ 57 then some (b - 48)
  else if 65 ≤ b ∧ b ≤ 70 then some (b - 55)
  else if 97 ≤ b ∧ b ≤ 102 then some (b - 87)
  else none

/-- url.QueryUnescape: plus becomes space, valid percent escapes decode,
malformed escapes fail. -/
def queryUnescape : GoStr → Option GoStr
  | [] => some []
  | 37 :: rest =>
    match rest with
    | a :: b :: rest2 =>
      match hexVal a, hexVal b with
      | some ha, some hb => (queryUnescape rest2).map (fun t => (16 * ha + hb) :: t)
      | _, _ => none
    | _ => none
  | 43 :: rest => (queryUnescape rest).map (fun t => 32 :: t)
  | c :: rest => (queryUnescape rest).map (fun t => c :: t)

/-- Bytes URL.String leaves alone inside a path: unreserved bytes plus the
path sub-delimiters; the question mark and the percent sign are escaped. -/
def isPathSafeByte (b : Nat) : Bool :=
  isUnreservedByte b ||
    decide (b = 36 ∨ b = 38 ∨ b = 43 ∨ b = 44 ∨ b = 47 ∨ b = 58 ∨ b = 59 ∨ b = 61 ∨ b = 64)

/-- Path escaping as URL.String performs it on a Path set directly. -/
def escapePath (s : GoStr) : GoStr :=
  s.foldr
    (fun b acc =>
      if isPathSafeByte b then b :: acc
      else 37 :: upperHexDigit (b / 16) :: upperHexDigit (b % 16) :: acc) []

/-- url.Values: a multimap from keys to lists of values. Go stores it as a
hash map; we store first-insertion order, which is observationally equal
because Encode sorts the keys and per-key value order is kept by both. -/
abbrev Values := List (GoStr × List GoStr)

/-- url.Values.Add: append the value to the list stored under the key. -/
def valuesAdd (v : Values) (key val : GoStr) : Values :=
  match v with
  | [] => [(key, [val])]
  | (k, vs) :: rest =>
    if k = key then (k, vs ++ [val]) :: rest
    else (k, vs) :: valuesAdd rest key val

/-- Indexing the multimap: the list of values stored under a key. -/
def valuesLookup (v : Values) (key : GoStr) : List GoStr :=
  match v with
  | [] => []
  | (k, vs) :: rest => if k = key then vs else valuesLookup rest key

/-- Insertion into a key-sorted association list; sort.Strings on the keys. -/
def insertSorted (x : GoStr × List GoStr) : Values → Values
  | [] => [x]
  | y :: ys => if bytesLt x.1 y.1 then x :: y :: ys else y :: insertSorted x ys

/-- The key-sorted view of the multimap that Encode iterates. -/
def sortByKey (v : Values) : Values := v.foldr insertSorted []

/-- url.Values.Encode: keys sorted byte-wise, each value emitted as escaped
key, equals sign, escaped value, segments joined with ampersands. -/
def valuesEncode (v : Values) : GoStr :=
  intercalateAmp
    ((sortByKey v).foldr
      (fun kv acc => kv.2.map (fun w => queryEscape kv.1 ++ 61 :: queryEscape w) ++ acc) [])

/-- url.ParseQuery as URL.Query uses it: the error is discarded and the
offending segments (empty, containing a semicolon, or failing to unescape)
are skipped. -/
def parseQuery (q : GoStr) : Values :=
  (if q = [] then [] else splitByte 38 q).foldl
    (fun m seg =>
      if seg = [] ∨ 59 ∈ seg then m
      else
        let kv := cutByte seg 61
        match queryUnescape kv.1, queryUnescape kv.2 with
        | some k, some v => valuesAdd m k v
        | _, _ => m) []

/-- The nested range loops of fullURL: every accumulated parameter is added,
in order, to the query parsed from the path. -/
def mergeValues (q : Values) (params : Values) : Values :=
  params.foldl (fun acc kv => kv.2.foldl (fun acc2 v => valuesAdd acc2 kv.1 v) acc) q

/-- The parts of url.URL the client reads or writes. -/
structure URL where
  scheme : GoStr
  host : GoStr
  path : GoStr
  rawQuery : GoStr
deriving DecidableEq

def isAlphaByte (b : Nat) : Bool :=
  decide ((65 ≤ b ∧ b ≤ 90) ∨ (97 ≤ b ∧ b ≤ 122))

def isSchemeByte (b : Nat) : Bool :=
  isAlphaByte b || decide ((48 ≤ b ∧ b ≤ 57) ∨ b = 43 ∨ b = 45 ∨ b = 46)

/-- A valid URL scheme: a letter followed by letters, digits, plus, minus
or dot, as net/url getScheme checks. -/
def validScheme (s : GoStr) : Bool :=
  match s with
  | [] => false
  | c :: rest => isAlphaByte c && rest.all isSchemeByte

/-- Host bytes the model accepts: unreserved bytes and the colon of a port. -/
def isHostByte (b : Nat) : Bool :=
  isUnreservedByte b || b == 58

/-- ASCII lower-casing, applied by url.Parse to the scheme. -/
def toLowerBytes (s : GoStr) : GoStr :=
  s.map fun b => if 65 ≤ b ∧ b ≤ 90 then b + 32 else b

/-- Bytes up to the first slash or question mark; the split between the
authority and what follows it. -/
def spanHost : GoStr → GoStr × GoStr
  | [] => ([], [])
  | c :: rest =>
    if c = 47 ∨ c = 63 then ([], c :: rest)
    else
      let p := spanHost rest
      (c :: p.1, p.2)

/-- Bytes up to the first question mark; the split between path and query. -/
def spanPath : GoStr → GoStr × GoStr
  | [] => ([], [])
  | c :: rest =>
    if c = 63 then ([], c :: rest)
    else
      let p := spanPath rest
      (c :: p.1, p.2)

/-- url.Parse, modelled on the subset the client exercises: absolute URLs of
the shape scheme://host[/path][?query] whose path needs no escaping.
Fragments, userinfo, percent escapes in host or path, and opaque URLs are
outside the model and make the parse fail. -/
def parseURL (s : GoStr) : Option URL :=
  if 35 ∈ s then none
  else
    let schemeRest := cutByte s 58
    if validScheme schemeRest.1 && [47, 47].isPrefixOf schemeRest.2 then
      let hostTail := spanHost (schemeRest.2.drop 2)
      if hostTail.1 ≠ [] ∧ hostTail.1.all isHostByte then
        match hostTail.2 with
        | [] => some ⟨toLowerBytes schemeRest.1, hostTail.1, [], []⟩
        | 63 :: q => some ⟨toLowerBytes schemeRest.1, hostTail.1, [], q⟩
        | rest =>
          let pt := spanPath rest
          if pt.1.all isPathSafeByte then
            match pt.2 with
            | 63 :: q => some ⟨toLowerBytes schemeRest.1, hostTail.1, pt.1, q⟩
            | _ => some ⟨toLowerBytes schemeRest.1, hostTail.1, pt.1, []⟩
          else none
      else none
    else none

/-- url.URL.String on the modelled subset: scheme, separator, host, escaped
path, and the raw query after a question mark when it is non-empty. -/
def urlString (u : URL) : GoStr :=
  u.scheme ++ gs "://" ++ u.host ++ escapePath u.path ++
    (if u.rawQuery = [] then [] else 63 :: u.rawQuery)

/-- http.Header: a multimap from canonicalized keys to lists of values. -/
abbrev HeaderMap := List (GoStr × List GoStr)

/-- Valid header field bytes per net/textproto: the token characters. -/
def isTokenByte (b : Nat) : Bool :=
  decide ((48 ≤ b ∧ b ≤ 57) ∨ (65 ≤ b ∧ b ≤ 90) ∨ (97 ≤ b ∧ b ≤ 122) ∨
    b = 33 ∨ b = 35 ∨ b = 36 ∨ b = 37 ∨ b = 38 ∨ b = 39 ∨ b = 42 ∨ b = 43 ∨
    b = 45 ∨ b = 46 ∨ b = 94 ∨ b = 95 ∨ b = 96 ∨ b = 124 ∨ b = 126)

/-- Canonical casing: upper-case after a start or a dash, lower-case elsewhere. -/
def canonicalCase : Bool → GoStr → GoStr
  | _, [] => []
  | up, c :: rest =>
    (if up ∧ 97 ≤ c ∧ c ≤ 122 then c - 32
     else if ¬ up ∧ 65 ≤ c ∧ c ≤ 90 then c + 32
     else c) :: canonicalCase (c = 45) rest

/-- textproto.CanonicalMIMEHeaderKey: keys holding a non-token byte pass
through unchanged. -/
def canonicalKey (s : GoStr) : GoStr :=
  if s.all isTokenByte then canonicalCase true s else s

/-- http.Header.Add. -/
def headerAdd (h : HeaderMap) (key val : GoStr) : HeaderMap :=
  valuesAdd h (canonicalKey key) val

/-- Replacement in an association list, used by http.Header.Set. -/
def assocSet (h : HeaderMap) (key val : GoStr) : HeaderMap :=
  match h with
  | [] => [(key, [val])]
  | (k, vs) :: rest =>
    if k = key then (k, [val]) :: rest else (k, vs) :: assocSet rest key val

/-- http.Header.Set. -/
def headerSet (h : HeaderMap) (key val : GoStr) : HeaderMap :=
  assocSet h (canonicalKey key) val

/-- All values stored under a canonical key. -/
def headerValues (h : HeaderMap) (key : GoStr) : List GoStr :=
  valuesLookup h (canonicalKey key)

/-- http.Header.Get: the first value under the canonical key, empty when the
key is absent. -/
def headerGet (h : HeaderMap) (key : GoStr) : GoStr :=
  match headerValues h key with
  | [] => []
  | v :: _ => v

/-- The error values do and the wrapper can carry. The messages of errors
wrapped from collaborators (the URL parser, json.Marshal, the transport, the
body reader, json.Decode) are kept opaque. -/
inductive Err where
  | urlErr (msg : GoStr)
  | marshalErr (msg : GoStr)
  | transportErr (msg : GoStr)
  | readErr (msg : GoStr)
  | decodeErr (msg : GoStr)
  | httpError (statusCode : Nat) (status method url body : GoStr)
deriving DecidableEq

/-- errors.Is(e, ErrNotOK): HTTPError.Unwrap returns the ErrNotOK sentinel,
so exactly the HTTPError variant matches; the opaque errors wrapped from the
transport, reader, marshaller and URL parser do not carry the sentinel in
their unwrap chains. -/
def errorsIsNotOK : Err → Bool
  | .httpError _ _ _ _ _ => true
  | _ => false

instance {α β : Type} [DecidableEq α] [DecidableEq β] : DecidableEq (Except α β)
  | .error a, .error b =>
    if h : a = b then .isTrue (by rw [h]) else .isFalse (fun hc => h (Except.error.inj hc))
  | .error _, .ok _ => .isFalse (fun hc => Except.noConfusion hc)
  | .ok _, .error _ => .isFalse (fun hc => Except.noConfusion hc)
  | .ok a, .ok b =>
    if h : a = b then .isTrue (by rw [h]) else .isFalse (fun hc => h (Except.ok.inj hc))

/-- An opaque body value together with the outcome json.Marshal gives on it;
marshalling is a pure function of the value. -/
structure BodyVal where
  marshal : Except GoStr GoStr
deriving DecidableEq

/-- Lines 134-142 of client.go: serialize the pending body when present. -/
def marshalBody : Option BodyVal → Except Err (Option GoStr)
  | none => .ok none
  | some b =>
    match b.marshal with
    | .ok s => .ok (some s)
    | .error e => .error (.marshalErr e)

/-- A readable body stream, modelled by the outcome io.ReadAll produces on
it: the bytes delivered and an optional read error. -/
abbrev BodyStream := GoStr × Option GoStr

/-- The parts of http.Response the client reads. -/
structure HTTPResponse where
  statusCode : Nat
  status : GoStr
  bodyRead : BodyStream
deriving DecidableEq

/-- What the Do call of the transport collaborator returns: an error or a response. -/
inductive TransportResult where
  | err (msg : GoStr)
  | ok (resp : HTTPResponse)
deriving DecidableEq

/-- The outbound http.Request as the client assembles it. -/
structure Request where
  method : GoStr
  url : GoStr
  header : HeaderMap
  body : Option GoStr
deriving DecidableEq

/-- Response of response.go: the wrapper over a live response and the error
captured during execution. -/
structure Response where
  resp : Option HTTPResponse
  err : Option Err
deriving DecidableEq

/-- Client of client.go. The transport is carried as an opaque handle; its
behaviour is supplied to execution as an interpretation of the handle. -/
structure Client where
  baseURL : GoStr
  params : Values
  headers : HeaderMap
  client : Nat
  body : Option BodyVal
deriving DecidableEq

/-- New of client.go; handle 0 stands for http.DefaultClient. -/
def New : Client :=
  { baseURL := [], params := [], headers := [], client := 0, body := none }

namespace Client

/-- BaseURL mutator. -/
def BaseURL (c : Client) (u : GoStr) : Client := { c with baseURL := u }

/-- Query mutator: adds one query parameter. -/
def Query (c : Client) (key value : GoStr) : Client :=
  { c with params := valuesAdd c.params key value }

/-- Header mutator: adds one header value. -/
def Header (c : Client) (key value : GoStr) : Client :=
  { c with headers := headerAdd c.headers key value }

/-- HTTPClient mutator: swaps the transport handle. -/
def HTTPClient (c : Client) (h : Nat) : Client := { c with client := h }

/-- Body mutator: stores the value to serialize on the next execution. -/
def Body (c : Client) (b : BodyVal) : Client := { c with body := some b }

/-- Reset of client.go: fresh params, fresh headers, nil body. -/
def Reset (c : Client) : Client :=
  { c with params := [], headers := [], body := none }

/-- fullURL of client.go. -/
def fullURL (c : Client) (path : GoStr) : Except Err GoStr :=
  if c.baseURL = [] then
    match parseURL path with
    | none => .error (.urlErr (gs "invalid URL"))
    | some u =>
      .ok (urlString { u with
        rawQuery := valuesEncode (mergeValues (parseQuery u.rawQuery) c.params) })
  else
    match parseURL c.baseURL with
    | none => .error (.urlErr (gs "invalid baseURL"))
    | some u =>
      .ok (urlString { u with
        path := trimSuffixStr u.path (gs "/") ++ gs "/" ++ trimPrefixStr path (gs "/"),
        rawQuery := valuesEncode c.params })

/-- The method do of client.go (do is a keyword in Lean). The transport
collaborator is an interpretation of the client handle; the context argument
is not modelled, cancellation surfaces as a transport error. Request
construction cannot fail here because the URL was produced by fullURL and the
method names used are valid, so the NewRequestWithContext error branch is
unreachable in the model. Besides the new client state and the response
wrapper, the result records the request handed to the transport, when one was
dispatched. -/
def doRequest (c : Client) (method path : GoStr)
    (tr : Nat → Request → TransportResult) : Client × Response × Option Request :=
  match c.fullURL path with
  | .error e => (c, ⟨none, some e⟩, none)
  | .ok url =>
    match marshalBody c.body with
    | .error e => (c, ⟨none, some e⟩, none)
    | .ok obody =>
      let req0 : Request := { method := method, url := url, header := [], body := obody }
      let req1 : Request :=
        if c.body.isSome ∧ headerGet req0.header (gs "Content-Type") = [] then
          { req0 with header := headerSet req0.header (gs "Content-Type") (gs "application/json") }
        else req0
      let req : Request := c.headers.foldl
        (fun r kv => kv.2.foldl
          (fun r2 v => { r2 with header := headerAdd r2.header kv.1 v }) r) req1
      match tr c.client req with
      | .err e => (c, ⟨none, some (.transportErr e)⟩, some req)
      | .ok resp =>
        if resp.statusCode < 200 ∨ 300 ≤ resp.statusCode then
          match resp.bodyRead.2 with
          | some e => (c, ⟨none, some (.readErr e)⟩, some req)
          | none =>
            (c, ⟨none, some (.httpError resp.statusCode resp.status method url resp.bodyRead.1)⟩,
              some req)
        else
          ({ c with body := none }, ⟨some resp, none⟩, some req)

/-- Get of client.go. -/
def Get (c : Client) (path : GoStr) (tr : Nat → Request → TransportResult) :
    Client × Response × Option Request :=
  c.doRequest (gs "GET") path tr

/-- Post of client.go. -/
def Post (c : Client) (path : GoStr) (tr : Nat → Request → TransportResult) :
    Client × Response × Option Request :=
  c.doRequest (gs "POST") path tr

end Client

namespace Response

/-- Raw of response.go: io.ReadAll passes both its bytes and its error
through. The double-none case cannot arise from wrappers do constructs. -/
def Raw (r : Response) : Option GoStr × Option Err :=
  match r.err with
  | some e => (none, some e)
  | none =>
    match r.resp with
    | some resp =>
      match resp.bodyRead.2 with
      | none => (some resp.bodyRead.1, none)
      | some e => (some resp.bodyRead.1, some (.readErr e))
    | none => (none, none)

/-- Body of response.go: hands out the live stream for the caller to read. -/
def Body (r : Response) : Option BodyStream × Option Err :=
  match r.err with
  | some e => (none, some e)
  | none =>
    match r.resp with
    | some resp => (some resp.bodyRead, none)
    | none => (none, none)

/-- Error of response.go. -/
def Error (r : Response) : Option Err := r.err

end Response

/-- Into of response.go. The JSON decoder for the target type is passed in as
the interpretation of json.NewDecoder(...).Decode: a pure function of the
body stream. On a captured error it is never consulted and the zero value of
the target type comes back. -/
def Into {T : Type} [Inhabited T] (decode : BodyStream → T × Option GoStr)
    (r : Response) : T × Option Err :=
  match r.err with
  | some e => (default, some e)
  | none =>
    match r.resp with
    | some resp =>
      let d := decode resp.bodyRead
      (d.1, d.2.map .decodeErr)
    | none => (default, none)

/-- The values a query string lists under a given encoded key, in their order
of appearance; the observation C6 is stated through. -/
def segmentsFor (q key : GoStr) : List GoStr :=
  if q = [] then []
  else
    (splitByte 38 q).filterMap fun seg =>
      let kv := cutByte seg 61
      if kv.1 = key then some kv.2 else none

/-- Adjacent byte-wise order of a key sequence: no key is smaller than the
one before it. -/
def keysSortedLe : List GoStr → Bool
  | [] => true
  | [_] => true
  | a :: b :: rest => !bytesLt b a && keysSortedLe (b :: rest)

/-- The C2 failing input: a body is set and the caller set an explicit
Content-Type header through the Header mutator. -/
def c2Client : Client :=
  (New.Body ⟨.ok (gs "1")⟩).Header (gs "Content-Type") (gs "text/plain")

/-- A transport that answers 200 with an empty, readable body. -/
def okTransport : Nat → Request → TransportResult :=
  fun _ _ => .ok ⟨200, gs "200 OK", ([], none)⟩

/-- A client loaded with a query parameter, a header and a body, for the C7
witness. -/
def c7Loaded : Client :=
  (((New.BaseURL (gs "https://h.test")).Query (gs "a") (gs "1")).Header
    (gs "X-Y") (gs "v")).Body ⟨.ok (gs "B")⟩

/-- A 404 response with a readable body, for witnesses. -/
def r404 : HTTPResponse := ⟨404, gs "404 Not Found", (gs "nf", none)⟩

/-- A 201 response with a readable body, for witnesses. -/
def r201 : HTTPResponse := ⟨201, gs "201 Created", (gs "ok", none)⟩

/-- A 500 response whose body stream fails to read, for witnesses. -/
def r500bad : HTTPResponse :=
  ⟨500, gs "500 Internal Server Error", ([], some (gs "read failed"))⟩

section Lemmas

/-- fullURL on a non-empty base address that parses. -/
theorem fullURL_base (c : Client) (path : GoStr) (u : URL)
    (hne : c.baseURL ≠ []) (hp : parseURL c.baseURL = some u) :
    c.fullURL path = .ok (urlString { u with
      path := trimSuffixStr u.path (gs "/") ++ gs "/" ++ trimPrefixStr path (gs "/"),
      rawQuery := valuesEncode c.params }) := by
  unfold Client.fullURL
  rw [if_neg hne, hp]

/-- fullURL on an empty base address and a path that parses. -/
theorem fullURL_nobase (c : Client) (path : GoStr) (u : URL)
    (he : c.baseURL = []) (hp : parseURL path = some u) :
    c.fullURL path = .ok (urlString { u with
      rawQuery := valuesEncode (mergeValues (parseQuery u.rawQuery) c.params) }) := by
  unfold Client.fullURL
  rw [if_pos he, hp]

/-- The state transition of do: the body is cleared exactly when the captured
error is absent, and no other field ever changes. -/
theorem doRequest_state (c : Client) (m p : GoStr)
    (tr : Nat → Request → TransportResult) :
    (c.doRequest m p tr).1 =
      if (c.doRequest m p tr).2.1.err = none then { c with body := none } else c := by
  unfold Client.doRequest
  split
  · simp
  · split
    · simp
    · dsimp only
      split
      · simp
      · split
        · split <;> simp
        · simp

/-- After Reset the request handed to the transport carries no headers and no
body: the default Content-Type branch is skipped (no body) and the header
copy loop runs over an empty map. -/
theorem doRequest_reset_request (c : Client) (m p : GoStr)
    (tr : Nat → Request → TransportResult) (req : Request)
    (h : (c.Reset.doRequest m p tr).2.2 = some req) :
    req.header = [] ∧ req.body = none := by
  unfold Client.doRequest at h
  revert h
  split
  · intro h; cases h
  · split
    · intro h; cases h
    · rename_i url obody hm
      have hb : marshalBody c.Reset.body = Except.ok none := rfl
      rw [hb] at hm
      cases hm
      dsimp only
      rw [if_neg (by simp [Client.Reset])]
      have hh : c.Reset.headers = [] := rfl
      rw [hh]
      dsimp only [List.foldl_nil]
      split
      · intro h; cases h; exact ⟨rfl, rfl⟩
      · split
        · split <;> (intro h; cases h; exact ⟨rfl, rfl⟩)
        · intro h; cases h; exact ⟨rfl, rfl⟩

/-- Looking a key up after Add: the value lists grow at the added key only,
at the end. -/
theorem valuesLookup_add (m : Values) (k v key : GoStr) :
    valuesLookup (valuesAdd m k v) key =
      valuesLookup m key ++ (if k = key then [v] else []) := by
  induction m with
  | nil =>
    by_cases h : k = key <;> simp [valuesAdd, valuesLookup, h]
  | cons hd tl ih =>
    obtain ⟨hk, hvs⟩ := hd
    by_cases h1 : hk = k
    · subst h1
      by_cases h2 : hk = key <;> simp [valuesAdd, valuesLookup, h2]
    · by_cases h2 : hk = key
      · subst h2
        have h3 : ¬ k = hk := fun hh => h1 hh.symm
        simp [valuesAdd, valuesLookup, h1, h3]
      · simp [valuesAdd, valuesLookup, h1, h2, ih]

/-- A key absent from the map looks up to the empty list. -/
theorem valuesLookup_not_mem (m : Values) (key : GoStr)
    (h : key ∉ m.map Prod.fst) : valuesLookup m key = [] := by
  induction m with
  | nil => rfl
  | cons hd tl ih =>
    simp only [List.map_cons, List.mem_cons, not_or] at h
    have h1 : ¬ hd.1 = key := fun hh => h.1 hh.symm
    simp [valuesLookup, h1, ih h.2]

/-- Adding under a fresh key appends a singleton entry at the end. -/
theorem valuesAdd_not_mem (m : Values) (k v : GoStr)
    (h : k ∉ m.map Prod.fst) : valuesAdd m k v = m ++ [(k, [v])] := by
  induction m with
  | nil => rfl
  | cons hd tl ih =>
    simp only [List.map_cons, List.mem_cons, not_or] at h
    have h1 : ¬ hd.1 = k := fun hh => h.1 hh.symm
    simp [valuesAdd, h1, ih h.2]

/-- Folding Add over a value list under one key: other keys unchanged, the
values of that key appended in order. -/
theorem valuesLookup_foldl_add (vs : List GoStr) (q : Values) (k key : GoStr) :
    valuesLookup (vs.foldl (fun acc v => valuesAdd acc k v) q) key =
      valuesLookup q key ++ (if k = key then vs else []) := by
  induction vs generalizing q with
  | nil => simp
  | cons v vt ih =>
    rw [List.foldl_cons, ih, valuesLookup_add]
    by_cases h : k = key <;> simp [h]

/-- Per-key content of the merge in fullURL: the values the path brought come
first, the accumulated values are appended after them. -/
theorem valuesLookup_merge (p q : Values) (key : GoStr)
    (hnd : (p.map Prod.fst).Nodup) :
    valuesLookup (mergeValues q p) key = valuesLookup q key ++ valuesLookup p key := by
  induction p generalizing q with
  | nil => simp [mergeValues, valuesLookup]
  | cons hd tl ih =>
    obtain ⟨hk, hvs⟩ := hd
    simp only [List.map_cons, List.nodup_cons] at hnd
    unfold mergeValues at ih ⊢
    rw [List.foldl_cons]
    rw [ih _ hnd.2, valuesLookup_foldl_add]
    by_cases h : hk = key
    · subst h
      rw [valuesLookup_not_mem tl _ hnd.1]
      simp [valuesLookup]
    · simp [valuesLookup, h]

/-- Unfolding queryEscape one input byte at a time. -/
theorem queryEscape_cons (b : Nat) (s : GoStr) :
    queryEscape (b :: s) =
      (if isUnreservedByte b then [b]
       else if b = 32 then [43]
       else [37, upperHexDigit (b / 16), upperHexDigit (b % 16)]) ++ queryEscape s := by
  unfold queryEscape
  rw [List.foldr_cons]
  by_cases h1 : isUnreservedByte b
  · simp [h1]
  · by_cases h2 : b = 32
    · subst h2
      simp [h1]
    · simp [h1, h2]

/-- Escaped strings never contain an ampersand or an equals sign: both are
escaped, and neither appears among the escape output bytes. -/
theorem ne_of_mem_queryEscape {s : GoStr} {x : Nat} (h : x ∈ queryEscape s) :
    x ≠ 38 ∧ x ≠ 61 := by
  induction s with
  | nil => cases h
  | cons b t ih =>
    rw [queryEscape_cons] at h
    rcases List.mem_append.mp h with h | h
    · by_cases h1 : isUnreservedByte b
      · rw [if_pos h1] at h
        simp only [List.mem_singleton] at h
        subst h
        have := of_decide_eq_true h1
        omega
      · rw [if_neg h1] at h
        by_cases h2 : b = 32
        · rw [if_pos h2] at h
          simp only [List.mem_singleton] at h
          omega
        · rw [if_neg h2] at h
          simp only [List.mem_cons, List.mem_singleton] at h
          unfold upperHexDigit at h
          rcases h with h | h | h
          · omega
          · split at h <;> omega
          · rcases h with h | h
            · split at h <;> omega
            · cases h
    · exact ih h

/-- A string without ampersands is a single field. -/
theorem splitByte_not_mem {s : GoStr} (h : 38 ∉ s) : splitByte 38 s = [s] := by
  induction s with
  | nil => rfl
  | cons c t ih =>
    simp only [List.mem_cons, not_or] at h
    have h1 : ¬ c = 38 := fun hh => h.1 hh.symm
    rw [splitByte, if_neg h1, ih h.2]

/-- Splitting after the first ampersand of a well-placed separator. -/
theorem splitByte_append {x r : GoStr} (h : 38 ∉ x) :
    splitByte 38 (x ++ 38 :: r) = x :: splitByte 38 r := by
  induction x with
  | nil => simp [splitByte]
  | cons c t ih =>
    simp only [List.mem_cons, not_or] at h
    have h1 : ¬ c = 38 := fun hh => h.1 hh.symm
    rw [List.cons_append, splitByte, if_neg h1, ih h.2]

/-- Splitting undoes joining when no field contains the separator. -/
theorem splitByte_intercalate (parts : List GoStr)
    (hne : parts ≠ []) (h : ∀ p ∈ parts, 38 ∉ p) :
    splitByte 38 (intercalateAmp parts) = parts := by
  induction parts with
  | nil => cases hne rfl
  | cons x rest ih =>
    cases rest with
    | nil => exact splitByte_not_mem (h x (by simp))
    | cons y ys =>
      rw [intercalateAmp]
      rw [splitByte_append (h x (by simp))]
      rw [ih (by simp) (fun p hp => h p (List.mem_cons_of_mem _ hp))]

/-- Cutting at a separator the left part does not contain. -/
theorem cutByte_append {a b : GoStr} (h : 61 ∉ a) :
    cutByte (a ++ 61 :: b) 61 = (a, b) := by
  induction a with
  | nil => simp [cutByte]
  | cons c t ih =>
    simp only [List.mem_cons, not_or] at h
    have h1 : ¬ c = 61 := fun hh => h.1 hh.symm
    rw [List.cons_append]
    unfold cutByte
    rw [if_neg h1, ih h.2]

/-- Folding Query values under a single key from a singleton map. -/
theorem foldl_add_same (k : GoStr) (vs acc : List GoStr) :
    vs.foldl (fun p v => valuesAdd p k v) [(k, acc)] = [(k, acc ++ vs)] := by
  induction vs generalizing acc with
  | nil => simp
  | cons v vt ih =>
    rw [List.foldl_cons]
    have hstep : valuesAdd [(k, acc)] k v = [(k, acc ++ [v])] := by
      simp [valuesAdd]
    rw [hstep, ih]
    simp

/-- Encode of a single-key map. -/
theorem valuesEncode_single (k : GoStr) (vs : List GoStr) :
    valuesEncode [(k, vs)] =
      intercalateAmp (vs.map fun w => queryEscape k ++ 61 :: queryEscape w) := by
  simp [valuesEncode, sortByKey, insertSorted]

/-- Joining non-empty segments yields a non-empty string when the first
segment is non-empty. -/
theorem intercalateAmp_cons_ne_nil (p : GoStr) (rest : List GoStr)
    (h : p ≠ []) : intercalateAmp (p :: rest) ≠ [] := by
  cases rest with
  | nil => simpa [intercalateAmp] using h
  | cons y ys =>
    rw [intercalateAmp]
    cases p <;> simp

/-- Reading the per-key segments back out of the joined encoded fields. -/
theorem filterMap_segments (k : GoStr) (l : List GoStr) :
    ((l.map fun w => queryEscape k ++ 61 :: queryEscape w).filterMap fun seg =>
        let kv := cutByte seg 61
        if kv.1 = queryEscape k then some kv.2 else none) =
      l.map queryEscape := by
  induction l with
  | nil => rfl
  | cons w ws ih =>
    simp only [List.map_cons, List.filterMap_cons]
    rw [cutByte_append (fun hmem => (ne_of_mem_queryEscape hmem).2 rfl)]
    simpa using ih

/-- The segments of the encoding of a single-key map under that key are its
values, escaped, in stored order. -/
theorem segmentsFor_encode_single (k : GoStr) (vs : List GoStr) :
    segmentsFor (valuesEncode [(k, vs)]) (queryEscape k) = vs.map queryEscape := by
  cases vs with
  | nil => rfl
  | cons w ws =>
    rw [valuesEncode_single]
    have hparts : ∀ p ∈ (w :: ws).map fun v => queryEscape k ++ 61 :: queryEscape v,
        38 ∉ p := by
      intro p hp hmem
      simp only [List.mem_map] at hp
      obtain ⟨v, _, rfl⟩ := hp
      rcases List.mem_append.mp hmem with hmem | hmem
      · exact (ne_of_mem_queryEscape hmem).1 rfl
      · rcases List.mem_cons.mp hmem with hmem | hmem
        · omega
        · exact (ne_of_mem_queryEscape hmem).1 rfl
    unfold segmentsFor
    simp only [List.map_cons]
    rw [if_neg (intercalateAmp_cons_ne_nil _ _ (by simp))]
    rw [splitByte_intercalate _ (by simp) (by simpa using hparts)]
    simpa using filterMap_segments k (w :: ws)

/-- Byte-wise order is asymmetric. -/
theorem bytesLt_asymm : ∀ a b : GoStr, bytesLt a b = true → bytesLt b a = false
  | [], [], h => by cases h
  | [], _ :: _, _ => rfl
  | _ :: _, [], h => by cases h
  | x :: xs, y :: ys, h => by
    rw [bytesLt] at h ⊢
    rcases Nat.lt_trichotomy x y with hc | hc | hc
    · rw [if_neg (by omega), if_pos hc]
    · subst hc
      rw [if_neg (by omega), if_neg (by omega)] at h ⊢
      exact bytesLt_asymm xs ys h
    · rw [if_neg (by omega), if_pos hc] at h
      cases h

/-- Byte-wise order is transitive. -/
theorem bytesLt_trans : ∀ a b c : GoStr,
    bytesLt a b = true → bytesLt b c = true → bytesLt a c = true
  | [], [], _, h1, _ => by cases h1
  | [], _ :: _, [], _, h2 => by cases h2
  | [], _ :: _, _ :: _, _, _ => rfl
  | _ :: _, [], _, h1, _ => by cases h1
  | _ :: _, _ :: _, [], _, h2 => by cases h2
  | x :: xs, y :: ys, z :: zs, h1, h2 => by
    rw [bytesLt] at h1 h2 ⊢
    rcases Nat.lt_trichotomy x y with hxy | hxy | hxy
    · rcases Nat.lt_trichotomy y z with hyz | hyz | hyz
      · rw [if_pos (by omega)]
      · subst hyz; rw [if_pos hxy]
      · rw [if_neg (by omega), if_pos hyz] at h2; cases h2
    · subst hxy
      rcases Nat.lt_trichotomy x z with hxz | hxz | hxz
      · rw [if_pos hxz]
      · subst hxz
        rw [if_neg (by omega), if_neg (by omega)] at h1 h2 ⊢
        exact bytesLt_trans xs ys zs h1 h2
      · rw [if_neg (by omega), if_pos hxz] at h2; cases h2
    · rw [if_neg (by omega), if_pos hxy] at h1; cases h1

/-- Byte-wise order is connected: distinct strings compare one way or the
other. -/
theorem bytesLt_conn : ∀ a b : GoStr, a ≠ b → bytesLt a b = true ∨ bytesLt b a = true
  | [], [], h => absurd rfl h
  | [], _ :: _, _ => .inl rfl
  | _ :: _, [], _ => .inr rfl
  | x :: xs, y :: ys, h => by
    rcases Nat.lt_trichotomy x y with hc | hc | hc
    · exact .inl (by rw [bytesLt, if_pos hc])
    · subst hc
      have hne : xs ≠ ys := fun hh => h (by rw [hh])
      rcases bytesLt_conn xs ys hne with h1 | h1
      · exact .inl (by rw [bytesLt, if_neg (by omega), if_neg (by omega)]; exact h1)
      · exact .inr (by rw [bytesLt, if_neg (by omega), if_neg (by omega)]; exact h1)
    · exact .inr (by rw [bytesLt, if_pos hc])

/-- Sorted insertions of entries with distinct keys commute, smaller key
first. -/
theorem insertSorted_comm_lt (x y : GoStr × List GoStr)
    (hlt : bytesLt x.1 y.1 = true) :
    ∀ l : Values, insertSorted x (insertSorted y l) = insertSorted y (insertSorted x l)
  | [] => by
    have hyx := bytesLt_asymm _ _ hlt
    simp [insertSorted, hlt, hyx]
  | z :: zs => by
    have hyx := bytesLt_asymm _ _ hlt
    by_cases hyz : bytesLt y.1 z.1 = true
    · have hxz : bytesLt x.1 z.1 = true := bytesLt_trans _ _ _ hlt hyz
      simp [insertSorted, hyz, hxz, hlt, hyx]
    · by_cases hxz : bytesLt x.1 z.1 = true
      · simp [insertSorted, hyz, hxz, hyx]
      · simp [insertSorted, hyz, hxz]
        exact insertSorted_comm_lt x y hlt zs

/-- Sorted insertions of entries with distinct keys commute. -/
theorem insertSorted_comm (x y : GoStr × List GoStr) (hne : x.1 ≠ y.1)
    (l : Values) :
    insertSorted x (insertSorted y l) = insertSorted y (insertSorted x l) := by
  rcases bytesLt_conn x.1 y.1 hne with h | h
  · exact insertSorted_comm_lt x y h l
  · exact (insertSorted_comm_lt y x h l).symm

/-- The sorted view is invariant under permutations of a map with distinct
keys. -/
theorem sortByKey_perm : ∀ {l1 l2 : Values}, l1.Perm l2 →
    (l1.map Prod.fst).Nodup → sortByKey l1 = sortByKey l2 := by
  intro l1 l2 h
  induction h with
  | nil => intro _; rfl
  | cons x h ih =>
    intro hnd
    simp only [List.map_cons, List.nodup_cons] at hnd
    simp only [sortByKey, List.foldr_cons]
    have := ih hnd.2
    simp only [sortByKey] at this
    rw [this]
  | swap x y l =>
    intro hnd
    simp only [List.map_cons, List.nodup_cons, List.mem_cons, not_or] at hnd
    simp only [sortByKey, List.foldr_cons]
    exact insertSorted_comm y x hnd.1.1 _
  | trans h1 h2 ih1 ih2 =>
    intro hnd
    rw [ih1 hnd, ih2 ((h1.map Prod.fst).nodup hnd)]

/-- Inserting keeps the key sequence sorted. -/
theorem keysSortedLe_insertSorted (x : GoStr × List GoStr) :
    ∀ l : Values, keysSortedLe (l.map Prod.fst) = true →
      keysSortedLe ((insertSorted x l).map Prod.fst) = true
  | [], _ => by simp [insertSorted, keysSortedLe]
  | y :: ys, h => by
    simp only [List.map_cons] at h
    by_cases hxy : bytesLt x.1 y.1 = true
    · have hyx : bytesLt y.1 x.1 = false := bytesLt_asymm _ _ hxy
      have hstep : insertSorted x (y :: ys) = x :: y :: ys := by
        simp [insertSorted, hxy]
      rw [hstep]
      simp only [List.map_cons]
      rw [keysSortedLe, Bool.and_eq_true]
      exact ⟨by simp [hyx], h⟩
    · have hxy2 : bytesLt x.1 y.1 = false := by
        cases hb : bytesLt x.1 y.1
        · rfl
        · exact absurd hb hxy
      have hstep : insertSorted x (y :: ys) = y :: insertSorted x ys := by
        simp [insertSorted, hxy]
      rw [hstep]
      cases ys with
      | nil =>
        simp [insertSorted, keysSortedLe, hxy2]
      | cons z zs =>
        simp only [List.map_cons] at h
        have hzy : bytesLt z.1 y.1 = false := by
          rw [keysSortedLe, Bool.and_eq_true] at h
          simpa using h.1
        have htail : keysSortedLe (z.1 :: List.map Prod.fst zs) = true := by
          rw [keysSortedLe, Bool.and_eq_true] at h
          exact h.2
        have hrec := keysSortedLe_insertSorted x (z :: zs) (by simpa using htail)
        by_cases hxz : bytesLt x.1 z.1 = true
        · have hzx : bytesLt z.1 x.1 = false := bytesLt_asymm _ _ hxz
          have hstep2 : insertSorted x (z :: zs) = x :: z :: zs := by
            simp [insertSorted, hxz]
          rw [hstep2]
          simp only [List.map_cons]
          rw [keysSortedLe, Bool.and_eq_true]
          refine ⟨by simp [hxy2], ?_⟩
          rw [keysSortedLe, Bool.and_eq_true]
          exact ⟨by simp [hzx], htail⟩
        · have hstep2 : insertSorted x (z :: zs) = z :: insertSorted x zs := by
            simp [insertSorted, hxz]
          rw [hstep2]
          simp only [List.map_cons]
          rw [keysSortedLe, Bool.and_eq_true]
          refine ⟨by simp [hzy], ?_⟩
          rw [hstep2] at hrec
          simpa using hrec

/-- The key sequence of the sorted view is byte-wise sorted. -/
theorem keysSortedLe_sortByKey (v : Values) :
    keysSortedLe ((sortByKey v).map Prod.fst) = true := by
  induction v with
  | nil => rfl
  | cons x t ih =>
    simp only [sortByKey, List.foldr_cons] at ih ⊢
    exact keysSortedLe_insertSorted x _ ih

/-- Folding Add over key-value pairs with pairwise-distinct keys lists them
in order with singleton value lists. -/
theorem foldl_add_distinct : ∀ (l : List (GoStr × GoStr)) (acc : Values),
    (acc.map Prod.fst ++ l.map Prod.fst).Nodup →
    l.foldl (fun p kv => valuesAdd p kv.1 kv.2) acc =
      acc ++ l.map fun kv => (kv.1, [kv.2])
  | [], acc, _ => by simp
  | kv :: rest, acc, hnd => by
    rw [List.foldl_cons]
    have hmem : kv.1 ∉ acc.map Prod.fst := by
      intro hmem
      rcases List.nodup_append.mp hnd with ⟨_, _, hdisj⟩
      exact hdisj hmem (by simp)
    rw [valuesAdd_not_mem acc kv.1 kv.2 hmem]
    have hnd2 : ((acc ++ [(kv.1, [kv.2])]).map Prod.fst ++ rest.map Prod.fst).Nodup := by
      simp only [List.map_append, List.map_cons, List.map_nil] at hnd ⊢
      simpa [List.append_assoc] using hnd
    rw [foldl_add_distinct rest (acc ++ [(kv.1, [kv.2])]) hnd2]
    simp

end Lemmas

section Claims

/-- C1: with a non-empty base address that parses, fullURL keeps the base
scheme and host, joins the base path and the given path with exactly one
separating slash (trailing slash trimmed from the base, leading slash trimmed
from the path), and sets the query string to exactly the encoded accumulated
parameters — so nothing the path carries after a question mark reaches the
query string; the documented scenario resolves as stated. -/
theorem c1_base_join :
    (∀ (c : Client) (path : GoStr) (u : URL),
      c.baseURL ≠ [] → parseURL c.baseURL = some u →
      c.fullURL path = .ok (urlString {
        scheme := u.scheme,
        host := u.host,
        path := trimSuffixStr u.path (gs "/") ++ gs "/" ++ trimPrefixStr path (gs "/"),
        rawQuery := valuesEncode c.params })) ∧
    ((New.BaseURL (gs "https://api.example.com")).Query (gs "userId") (gs "1")).fullURL
        (gs "/posts") = .ok (gs "https://api.example.com/posts?userId=1") := by
  constructor
  · intro c path u hne hp
    exact fullURL_base c path u hne hp
  · decide

/-- Witness for C1: the joined-path form at a base address carrying a
trailing slash. -/
theorem c1_base_join_witness :
    Client.fullURL
        ((New.BaseURL (gs "https://api.example.com/v1/")).Query (gs "userId") (gs "1"))
        (gs "/posts") =
      .ok (urlString {
        scheme := gs "https",
        host := gs "api.example.com",
        path := trimSuffixStr (gs "/v1/") (gs "/") ++ gs "/" ++
          trimPrefixStr (gs "/posts") (gs "/"),
        rawQuery := valuesEncode
          ((New.BaseURL (gs "https://api.example.com/v1/")).Query
            (gs "userId") (gs "1")).params }) :=
  c1_base_join.1 _ _ ⟨gs "https", gs "api.example.com", gs "/v1/", []⟩
    (by decide) (by decide)

/-- C2 fails on the code: the default Content-Type check reads the freshly
constructed request before the accumulated caller headers are copied onto
it, so whenever a body is present the default application/json is applied
even though the caller set an explicit Content-Type through the Header
mutator; the caller value is added after it as a second value, and Get
returns the default. -/
theorem c2_content_type_default_despite_override :
    headerValues c2Client.headers (gs "Content-Type") = [gs "text/plain"] ∧
    (c2Client.doRequest (gs "POST") (gs "https://x.test/a") okTransport).2.2 =
      some {
        method := gs "POST",
        url := gs "https://x.test/a",
        header := [(gs "Content-Type", [gs "application/json", gs "text/plain"])],
        body := some (gs "1") } ∧
    ((c2Client.doRequest (gs "POST") (gs "https://x.test/a") okTransport).2.2.map
        (fun req => headerGet req.header (gs "Content-Type"))) =
      some (gs "application/json") := by
  refine ⟨by decide, by decide, by decide⟩

/-- C3: execution clears the pending body exactly when the captured error is
absent; on any failure — URL parse, serialization, transport, body read, or
non-2xx status — the client comes back unchanged, so a retry sends the same
body, and the accumulated query parameters and headers are never mutated by
execution. -/
theorem c3_body_cleared_exactly_on_success (c : Client) (method path : GoStr)
    (tr : Nat → Request → TransportResult) :
    (c.doRequest method path tr).1 =
      (if (c.doRequest method path tr).2.1.err = none
       then { c with body := none } else c) :=
  doRequest_state c method path tr

/-- Witness for C3: a failing transport leaves a set body in place, a
succeeding one clears it. -/
theorem c3_witness :
    ((New.Body ⟨.ok (gs "B")⟩).doRequest (gs "POST") (gs "https://x.test/a")
        (fun _ _ => .err (gs "boom"))).1 =
      (if ((New.Body ⟨.ok (gs "B")⟩).doRequest (gs "POST") (gs "https://x.test/a")
          (fun _ _ => .err (gs "boom"))).2.1.err = none
       then { New.Body ⟨.ok (gs "B")⟩ with body := none }
       else New.Body ⟨.ok (gs "B")⟩) :=
  c3_body_cleared_exactly_on_success (New.Body ⟨.ok (gs "B")⟩) (gs "POST")
    (gs "https://x.test/a") (fun _ _ => .err (gs "boom"))

/-- C4: when the transport returns a response, a status in the 2xx band
yields a wrapper holding the live response and no error; any other status
with a readable body yields a wrapper whose error is an HTTPError carrying
the status code, status text, method, resolved URL, and buffered body, and
that error matches the ErrNotOK sentinel through its unwrap chain. -/
theorem c4_status_classification (c : Client) (method path url : GoStr)
    (ob : Option GoStr) (r : HTTPResponse)
    (hurl : c.fullURL path = .ok url) (hm : marshalBody c.body = .ok ob) :
    ((200 ≤ r.statusCode ∧ r.statusCode < 300) →
      (c.doRequest method path (fun _ _ => .ok r)).2.1 = ⟨some r, none⟩) ∧
    (¬ (200 ≤ r.statusCode ∧ r.statusCode < 300) →
      ∀ b, r.bodyRead = (b, none) →
      (c.doRequest method path (fun _ _ => .ok r)).2.1 =
        ⟨none, some (.httpError r.statusCode r.status method url b)⟩ ∧
      errorsIsNotOK (.httpError r.statusCode r.status method url b) = true) := by
  unfold Client.doRequest
  rw [hurl, hm]
  dsimp only
  constructor
  · intro h
    rw [if_neg (by omega)]
  · intro h b hbr
    rw [if_pos (by omega), hbr]
    exact ⟨rfl, rfl⟩

/-- Witness for C4: a 404 is wrapped as a sentinel-matching HTTPError and a
201 comes back live. -/
theorem c4_witness :
    ((New.doRequest (gs "GET") (gs "https://x.test/a") (fun _ _ => .ok r404)).2.1 =
      ⟨none, some (.httpError r404.statusCode r404.status (gs "GET")
        (gs "https://x.test/a") (gs "nf"))⟩ ∧
     errorsIsNotOK (.httpError r404.statusCode r404.status (gs "GET")
        (gs "https://x.test/a") (gs "nf")) = true) ∧
    (New.doRequest (gs "GET") (gs "https://x.test/a") (fun _ _ => .ok r201)).2.1 =
      ⟨some r201, none⟩ :=
  ⟨(c4_status_classification New (gs "GET") (gs "https://x.test/a")
      (gs "https://x.test/a") none r404 (by decide) (by decide)).2
      (by decide) (gs "nf") (by decide),
   (c4_status_classification New (gs "GET") (gs "https://x.test/a")
      (gs "https://x.test/a") none r201 (by decide) (by decide)).1 (by decide)⟩

/-- C8: every terminal accessor on a wrapper built with a captured error
re-surfaces that same error: Raw with nil bytes, Body with a nil stream,
Error directly, and the generic decode with the zero value of the target
type, whatever decoder the target type provides — no stream is touched. -/
theorem c8_error_resurfaces (T : Type) [Inhabited T] (e : Err)
    (decode : BodyStream → T × Option GoStr) :
    Response.Raw ⟨none, some e⟩ = (none, some e) ∧
    Response.Body ⟨none, some e⟩ = (none, some e) ∧
    Response.Error ⟨none, some e⟩ = some e ∧
    Into decode ⟨none, some e⟩ = (default, some e) :=
  ⟨rfl, rfl, rfl, rfl⟩

/-- Witness for C8 at a concrete captured error and decoder. -/
theorem c8_witness :
    Response.Raw ⟨none, some (.transportErr (gs "boom"))⟩ =
      (none, some (.transportErr (gs "boom"))) ∧
    Response.Body ⟨none, some (.transportErr (gs "boom"))⟩ =
      (none, some (.transportErr (gs "boom"))) ∧
    Response.Error ⟨none, some (.transportErr (gs "boom"))⟩ =
      some (.transportErr (gs "boom")) ∧
    Into (fun _ => ((0 : Nat), none)) ⟨none, some (.transportErr (gs "boom"))⟩ =
      (default, some (.transportErr (gs "boom"))) :=
  c8_error_resurfaces Nat (.transportErr (gs "boom")) (fun _ => ((0 : Nat), none))

/-- C10: when the transport returns a non-2xx response whose body stream
fails to read, the captured error is the raw read error itself, not an
HTTPError, and it does not match the ErrNotOK sentinel. -/
theorem c10_read_failure (c : Client) (method path url : GoStr)
    (ob : Option GoStr) (r : HTTPResponse)
    (hurl : c.fullURL path = .ok url) (hm : marshalBody c.body = .ok ob)
    (hst : ¬ (200 ≤ r.statusCode ∧ r.statusCode < 300)) :
    ∀ b e, r.bodyRead = (b, some e) →
      (c.doRequest method path (fun _ _ => .ok r)).2.1 = ⟨none, some (.readErr e)⟩ ∧
      errorsIsNotOK (.readErr e) = false := by
  intro b e hbr
  unfold Client.doRequest
  rw [hurl, hm]
  dsimp only
  rw [if_pos (by omega), hbr]
  exact ⟨rfl, rfl⟩

/-- Witness for C10: a 500 whose body read fails surfaces the read error,
which does not match the sentinel. -/
theorem c10_witness :
    (New.doRequest (gs "GET") (gs "https://x.test/a") (fun _ _ => .ok r500bad)).2.1 =
      ⟨none, some (.readErr (gs "read failed"))⟩ ∧
    errorsIsNotOK (.readErr (gs "read failed")) = false :=
  c10_read_failure New (gs "GET") (gs "https://x.test/a") (gs "https://x.test/a")
    none r500bad (by decide) (by decide) (by decide) [] (gs "read failed") (by decide)

/-- C5: with an empty base address and a path that parses, the resolved URL
keeps the scheme, host and path of the path argument, and its query is the encoding of the
query the path brought merged with the accumulated parameters; within each key the
accumulated values are appended after the values already present in the
path, and the documented scenario resolves as stated. -/
theorem c5_nobase_merge :
    (∀ (c : Client) (path : GoStr) (u : URL),
      c.baseURL = [] → parseURL path = some u →
      c.fullURL path = .ok (urlString {
        scheme := u.scheme,
        host := u.host,
        path := u.path,
        rawQuery := valuesEncode (mergeValues (parseQuery u.rawQuery) c.params) })) ∧
    (∀ (q p : Values) (key : GoStr), (p.map Prod.fst).Nodup →
      valuesLookup (mergeValues q p) key = valuesLookup q key ++ valuesLookup p key) ∧
    (New.Query (gs "y") (gs "2")).fullURL (gs "https://x.test/a?x=1") =
      .ok (gs "https://x.test/a?x=1&y=2") := by
  refine ⟨fun c path u he hp => fullURL_nobase c path u he hp, ?_, by decide⟩
  intro q p key hnd
  exact valuesLookup_merge p q key hnd

/-- Witness for C5 at a concrete path carrying its own query and an
accumulated parameter under the same key. -/
theorem c5_witness :
    Client.fullURL (New.Query (gs "x") (gs "9")) (gs "https://x.test/a?x=1") =
      .ok (urlString {
        scheme := gs "https",
        host := gs "x.test",
        path := gs "/a",
        rawQuery := valuesEncode (mergeValues (parseQuery (gs "x=1"))
          (New.Query (gs "x") (gs "9")).params) }) ∧
    valuesLookup (mergeValues (parseQuery (gs "x=1"))
        (New.Query (gs "x") (gs "9")).params) (gs "x") =
      valuesLookup (parseQuery (gs "x=1")) (gs "x") ++
        valuesLookup (New.Query (gs "x") (gs "9")).params (gs "x") :=
  ⟨c5_nobase_merge.1 _ _ ⟨gs "https", gs "x.test", gs "/a", gs "x=1"⟩
      (by decide) (by decide),
   c5_nobase_merge.2.1 _ _ (gs "x") (by decide)⟩

/-- C6: repeated Query calls under one key keep every added value, in order
of addition, among the emitted key=value segments of the encoded query; a
concrete three-value run reaches the resolved URL intact. -/
theorem c6_multivalue_order :
    (∀ (k : GoStr) (vs : List GoStr),
      segmentsFor (valuesEncode (vs.foldl (fun p v => valuesAdd p k v) []))
          (queryEscape k) =
        vs.map queryEscape) ∧
    ((((New.BaseURL (gs "https://h.test")).Query (gs "a") (gs "1")).Query (gs "a")
        (gs "2")).Query (gs "a") (gs "3")).fullURL (gs "/p") =
      .ok (gs "https://h.test/p?a=1&a=2&a=3") := by
  constructor
  · intro k vs
    cases vs with
    | nil => rfl
    | cons v vt =>
      rw [List.foldl_cons]
      have h1 : valuesAdd [] k v = [(k, [v])] := rfl
      rw [h1, foldl_add_same]
      simpa using segmentsFor_encode_single k (v :: vt)
  · decide

/-- C7: Reset clears exactly the query parameters, headers and pending body,
preserving the base address and the transport handle; an execution after
Reset dispatches a request with no headers and no body, and resolves its URL
with an empty query string in the base branch and with exactly the query the
path brought in the no-base branch. -/
theorem c7_reset_clears_mutable_state :
    (∀ c : Client, c.Reset = {
        baseURL := c.baseURL,
        params := [],
        headers := [],
        client := c.client,
        body := none }) ∧
    (∀ (c : Client) (m p : GoStr) (tr : Nat → Request → TransportResult)
        (req : Request),
      (c.Reset.doRequest m p tr).2.2 = some req →
        req.header = [] ∧ req.body = none) ∧
    (∀ (c : Client) (path : GoStr) (u : URL),
      c.Reset.baseURL ≠ [] → parseURL c.Reset.baseURL = some u →
      c.Reset.fullURL path = .ok (urlString {
        scheme := u.scheme,
        host := u.host,
        path := trimSuffixStr u.path (gs "/") ++ gs "/" ++ trimPrefixStr path (gs "/"),
        rawQuery := [] })) ∧
    (∀ (c : Client) (path : GoStr) (u : URL),
      c.Reset.baseURL = [] → parseURL path = some u →
      c.Reset.fullURL path = .ok (urlString {
        scheme := u.scheme,
        host := u.host,
        path := u.path,
        rawQuery := valuesEncode (parseQuery u.rawQuery) })) := by
  refine ⟨fun c => rfl, doRequest_reset_request, ?_, ?_⟩
  · intro c path u hne hp
    exact fullURL_base c.Reset path u hne hp
  · intro c path u he hp
    exact fullURL_nobase c.Reset path u he hp

/-- Witness for C7: after Reset of a fully loaded client the dispatched
request is bare and the resolved URL carries an empty query. -/
theorem c7_witness :
    (({ method := gs "GET", url := gs "https://h.test/p", header := [],
        body := none } : Request).header = [] ∧
     ({ method := gs "GET", url := gs "https://h.test/p", header := [],
        body := none } : Request).body = none) ∧
    c7Loaded.Reset.fullURL (gs "/p") = .ok (urlString {
      scheme := gs "https",
      host := gs "h.test",
      path := gs "/p",
      rawQuery := [] }) :=
  ⟨c7_reset_clears_mutable_state.2.1 c7Loaded (gs "GET") (gs "/p") okTransport _
      (by decide),
   c7_reset_clears_mutable_state.2.2.1 c7Loaded (gs "/p")
      ⟨gs "https", gs "h.test", [], []⟩ (by decide) (by decide)⟩

/-- C9: the encoding sorts keys — the emitted key sequence of the sorted view
is byte-wise sorted for every multimap, the encoded string is invariant under
permuting the order in which distinct keys are added, and a concrete run in
the no-base branch shows a path key and a later-added accumulated key emitted
in sorted order rather than addition order. -/
theorem c9_encode_sorts_keys :
    (∀ v : Values, keysSortedLe ((sortByKey v).map Prod.fst) = true) ∧
    (∀ l1 l2 : List (GoStr × GoStr), (l1.map Prod.fst).Nodup → l1.Perm l2 →
      valuesEncode (l1.foldl (fun p kv => valuesAdd p kv.1 kv.2) []) =
        valuesEncode (l2.foldl (fun p kv => valuesAdd p kv.1 kv.2) [])) ∧
    (New.Query (gs "y") (gs "2")).fullURL (gs "https://x.test/a?z=1") =
      .ok (gs "https://x.test/a?y=2&z=1") := by
  refine ⟨keysSortedLe_sortByKey, ?_, by decide⟩
  intro l1 l2 hnd hperm
  rw [foldl_add_distinct l1 [] (by simpa using hnd)]
  rw [foldl_add_distinct l2 []
    (by simpa using ((hperm.map Prod.fst).nodup hnd))]
  simp only [List.nil_append]
  unfold valuesEncode
  have hmap : ((l1.map fun kv => (kv.1, [kv.2])).map Prod.fst).Nodup := by
    simpa [List.map_map, Function.comp] using hnd
  rw [sortByKey_perm (hperm.map fun kv => (kv.1, [kv.2])) hmap]

/-- Witness for C9: two distinct keys added in either order encode to the
same string. -/
theorem c9_witness :
    valuesEncode ([(gs "b", gs "2"), (gs "a", gs "1")].foldl
        (fun p kv => valuesAdd p kv.1 kv.2) []) =
      valuesEncode ([(gs "a", gs "1"), (gs "b", gs "2")].foldl
        (fun p kv => valuesAdd p kv.1 kv.2) []) :=
  c9_encode_sorts_keys.2.1 _ _ (by decide)
    (List.Perm.swap (gs "a", gs "1") (gs "b", gs "2") [])

end Claims

end Fluent
